import Mathlib

/-!
# s2-otel-exporter: the basin log exporter

A shallow embedding of `s2-otel-exporter/{config,factory,exporter}.go` and the
properties of its routing, serialization and dispatch logic.

Modelling conventions.

* A Go `string` / `[]byte` holding UTF-8 text is a Lean `String`; `len` is the
  UTF-8 byte length (`String.utf8ByteSize`).
* A `uint64` is a `Nat` read modulo `2^64`; `int`/`int64` are `Int`.
* The parts of the Go standard library and of `pdata` that the exporter calls
  (`time`, `encoding/json`, `pcommon`, `plog`) are embedded next to the code
  that uses them, following their Go sources.
* `sendRecord` talks to the network and `time.Now` reads the wall clock: both
  are supplied by an environment `Env`, and the calls made are recorded in the
  `World` that `pushLogs` threads through its loops.
* Logging (`zap`) is an output sink only and is not modelled.
-/

set_option maxRecDepth 100000

namespace S2Exporter

/-! ## Package `time` -/

namespace time

/-- Seconds in a day (`secondsPerDay`). -/
def secondsPerDay : Nat := 86400

/-- Seconds in an hour (`secondsPerHour`). -/
def secondsPerHour : Nat := 3600

/-- Days in a 400-year cycle (`daysPer400Years`). -/
def daysPer400Years : Nat := 365 * 400 + 97

/-- Days in a 100-year cycle (`daysPer100Years`). -/
def daysPer100Years : Nat := 365 * 100 + 24

/-- Days in a 4-year cycle (`daysPer4Years`). -/
def daysPer4Years : Nat := 365 * 4 + 1

/-- The year of the absolute zero instant (`absoluteZeroYear`). -/
def absoluteZeroYear : Int := -292277022399

/-- Offset from the Unix epoch to the internal epoch, January 1 of year 1
(`unixToInternal = (1969*365 + 1969/4 - 1969/100 + 1969/400) * secondsPerDay`). -/
def unixToInternal : Int := (1969 * 365 + 1969 / 4 - 1969 / 100 + 1969 / 400) * 86400

/-- Offset from the internal epoch to the absolute epoch
(`internalToAbsolute = -absoluteToInternal`, where `absoluteToInternal` is
`(absoluteZeroYear - internalYear) * 365.2425 * secondsPerDay`). -/
def internalToAbsolute : Int := 9223371966579724800

/-- A `time.Time`, by the two quantities its methods read: `sec` is the number
of seconds since January 1, year 1 00:00:00 UTC (`t.sec()`), `nsec` the
nanoseconds within that second (`t.nsec()`). The location only matters for
formatting, and the exporter formats in UTC throughout. -/
structure Time where
  sec : Int
  nsec : Int
  deriving DecidableEq, Repr

/-- Go `unixTime(sec, nsec)`: the time `sec` seconds and `nsec` nanoseconds after
the Unix epoch. -/
def unixTime (sec nsec : Int) : Time := ⟨sec + unixToInternal, nsec⟩

/-- Go `time.Unix(sec, nsec)`: `nsec` outside `[0, 999999999]` is carried into
`sec`; Go's `/` on integers truncates toward zero. The exporter reaches it
through `AsTime` only, with `sec = 0` and `nsec` an `int64`, where the sums
stay within `int64`. -/
def Unix (sec nsec : Int) : Time :=
  if nsec < 0 ∨ nsec ≥ 1000000000 then
    let n := nsec.tdiv 1000000000
    let sec := sec + n
    let nsec := nsec - n * 1000000000
    if nsec < 0 then unixTime (sec - 1) (nsec + 1000000000) else unixTime sec nsec
  else unixTime sec nsec

/-- Go `Time.IsZero`: whether `t` is the zero time instant, January 1, year 1,
00:00:00 UTC. -/
def Time.IsZero (t : Time) : Bool := t.sec == 0 && t.nsec == 0

/-- Go `Time.unixSec`: seconds since the Unix epoch. -/
def Time.unixSec (t : Time) : Int := t.sec - unixToInternal

/-- Go `Time.abs` for a time in UTC: seconds since the absolute zero instant, as
a `uint64`. -/
def Time.abs (t : Time) : Nat :=
  ((t.unixSec + (unixToInternal + internalToAbsolute)) % 2 ^ 64).toNat

/-- Go `isLeap`: whether `year` is a leap year of the Gregorian calendar. -/
def isLeap (year : Int) : Bool :=
  year % 4 == 0 && (year % 100 != 0 || year % 400 == 0)

/-- Go `daysBefore[m]`: the number of days in a non-leap year before month `m+1`. -/
def daysBefore : List Nat :=
  [0, 31, 59, 90, 120, 151, 181, 212, 243, 273, 304, 334, 365]

/-- First half of `absDate`: the year (counted from the absolute zero year) and
the zero-based day of the year of the day number `d`. -/
def absYear (d : Nat) : Nat × Nat :=
  -- Account for 400 year cycles.
  let n := d / daysPer400Years
  let y := 400 * n
  let d := d - daysPer400Years * n
  -- Cut off 100-year cycles; `n -= n >> 2` keeps the last day of the cycle in it.
  let n := d / daysPer100Years
  let n := n - n / 4
  let y := y + 100 * n
  let d := d - daysPer100Years * n
  -- Cut off 4-year cycles.
  let n := d / daysPer4Years
  let y := y + 4 * n
  let d := d - daysPer4Years * n
  -- Cut off years within a 4-year cycle.
  let n := d / 365
  let n := n - n / 4
  let y := y + n
  let d := d - 365 * n
  (y, d)

/-- Second half of `absDate`: month (1-12) and day of the month (1-31) of the
zero-based day `yday` of a year that is a leap year or not. -/
def monthDay (leap : Bool) (yday : Nat) : Nat × Nat :=
  if leap ∧ yday = 31 + 29 - 1 then
    -- Leap day.
    (2, 29)
  else
    -- After leap day; pretend it wasn't there.
    let day := if leap ∧ yday > 31 + 29 - 1 then yday - 1 else yday
    -- Estimate month on assumption that every month has 31 days.
    let month := day / 31
    let stop := daysBefore.getD (month + 1) 0
    if day ≥ stop then (month + 2, day - stop + 1)
    else (month + 1, day - daysBefore.getD month 0 + 1)

/-- Go `absDate(abs, true)`: year, month and day of the month in which the
absolute time `abs` falls. -/
def absDate (abs : Nat) : Int × Nat × Nat :=
  let yd := absYear (abs / secondsPerDay)
  let year : Int := (yd.1 : Int) + absoluteZeroYear
  let md := monthDay (isLeap year) yd.2
  (year, md.1, md.2)

/-- Decimal digits of `u`, most significant first, left-padded with zeros to
`width` digits. -/
def padDigits (u width : Nat) : List Char :=
  let ds := Nat.toDigits 10 u
  List.replicate (width - ds.length) '0' ++ ds

/-- Go `appendInt(b, x, width)`: the decimal form of `x`, zero-padded to `width`
digits after the sign; 2- and 4-digit fields take the fast path. -/
def appendInt (x : Int) (width : Nat) : String :=
  let u := x.natAbs
  let sign := if x < 0 then "-" else ""
  if width = 2 ∧ u < 100 then
    sign ++ ⟨[Nat.digitChar (u / 10), Nat.digitChar (u % 10)]⟩
  else if width = 4 ∧ u < 10000 then
    sign ++ ⟨[Nat.digitChar (u / 1000), Nat.digitChar (u / 100 % 10),
      Nat.digitChar (u / 10 % 10), Nat.digitChar (u % 10)]⟩
  else
    sign ++ ⟨padDigits u width⟩

/-- Drop the trailing `'0'` characters of a digit string given in reverse. -/
def dropZeros : List Char → List Char
  | [] => []
  | c :: cs => if c = '0' then dropZeros cs else c :: cs

/-- Go `appendNano(b, nanosec, stdFracSecond9)`: the fractional second with
trailing zeros removed, nothing at all when it is zero. -/
def appendNano (nanosec : Int) : String :=
  if nanosec = 0 then ""
  else "." ++ ⟨(dropZeros (appendInt nanosec 9).data.reverse).reverse⟩

/-- Go `t.UTC().Format("2006-01-02-15")`: year, month, day and hour of `t` in UTC. -/
def Time.FormatHour (t : Time) : String :=
  let abs := t.abs
  let date := absDate abs
  let hour := abs % secondsPerDay / secondsPerHour
  appendInt date.1 4 ++ "-" ++ appendInt date.2.1 2 ++ "-" ++ appendInt date.2.2 2
    ++ "-" ++ appendInt hour 2

/-- Go `t.Format(time.RFC3339Nano)` for a time in UTC, layout
`2006-01-02T15:04:05.999999999Z07:00`. -/
def Time.FormatRFC3339Nano (t : Time) : String :=
  let abs := t.abs
  let date := absDate abs
  let secs := abs % secondsPerDay
  let hour := secs / secondsPerHour
  let min := secs % secondsPerHour / 60
  let s := secs % 60
  appendInt date.1 4 ++ "-" ++ appendInt date.2.1 2 ++ "-" ++ appendInt date.2.2 2
    ++ "T" ++ appendInt hour 2 ++ ":" ++ appendInt min 2 ++ ":" ++ appendInt s 2
    ++ appendNano t.nsec ++ "Z"

end time

/-! ## Package `pcommon` / `plog` (pdata) -/

/-- A `pcommon.Value`. The exporter applies one operation to a value,
`AsString`, so a value is represented by the text that `AsString` returns for
it (the string itself for a string value, the decimal form for an integer,
the JSON form for a map or slice, and so on). -/
structure Value where
  AsString : String
  deriving DecidableEq, Repr

/-- A `pcommon.Map`: a slice of key/value entries. -/
abbrev Map := List (String × Value)

/-- Go `Map.Get(key)`: the value of the first entry with that key. -/
def Map.Get : Map → String → Option Value
  | [], _ => none
  | (k, v) :: rest, key => if k = key then some v else Map.Get rest key

/-- A `pcommon.Timestamp`: nanoseconds since the Unix epoch, a `uint64`. -/
abbrev Timestamp := Nat

/-- Go's conversion `int64(u)` of a `uint64`. -/
def toInt64 (u : Nat) : Int :=
  if u % 2 ^ 64 < 2 ^ 63 then ((u % 2 ^ 64 : Nat) : Int)
  else ((u % 2 ^ 64 : Nat) : Int) - 2 ^ 64

/-- Go `Timestamp.AsTime`: `time.Unix(0, int64(ts)).UTC()`. -/
def Timestamp.AsTime (ts : Timestamp) : time.Time := time.Unix 0 (toInt64 ts)

/-- A `pcommon.Resource`. -/
structure Resource where
  Attributes : Map
  deriving DecidableEq, Repr

/-- A `plog.LogRecord`, with the fields the exporter reads. -/
structure LogRecord where
  Timestamp : Timestamp
  SeverityText : String
  Body : Value
  Attributes : Map
  deriving DecidableEq, Repr

/-- A `plog.ScopeLogs`. -/
structure ScopeLogs where
  LogRecords : List LogRecord
  deriving DecidableEq, Repr

/-- A `plog.ResourceLogs`. -/
structure ResourceLogs where
  Resource : Resource
  ScopeLogs : List ScopeLogs
  deriving DecidableEq, Repr

/-- A `plog.Logs`: the slice returned by `ld.ResourceLogs()`. -/
abbrev Logs := List ResourceLogs

/-! ## Package `encoding/json` -/

namespace json

/-- A Go value of static type `interface{}` as `json.Marshal` meets it: a
string, a `map[string]interface{}` (an association list, kept free of
duplicate keys by `mapAssign`), or a value of a kind that cannot be encoded
(a channel, a function, a complex number). -/
inductive Any where
  | str (s : String)
  | map (m : List (String × Any))
  | unsupported

/-- The map assignment `m[k] = v`. -/
def mapAssign {α : Type} : List (String × α) → String → α → List (String × α)
  | [], k, v => [(k, v)]
  | (k0, v0) :: rest, k, v =>
    if k0 = k then (k, v) :: rest else (k0, v0) :: mapAssign rest k v

/-- Lower-case hexadecimal digits (`hex`). -/
def hex (n : Nat) : Char := "0123456789abcdef".data.getD n '0'

/-- The encoding of one character inside a JSON string (`appendString` with
`escapeHTML` set): quote and backslash are escaped with a backslash, the
control characters and `<`, `>`, `&` as `\u00XX` (with the short forms `\b`,
`\f`, `\n`, `\r`, `\t`), U+2028 and U+2029 as `\u202X`; every other character
stands for itself. -/
def escapeChar (c : Char) : List Char :=
  let b := c.toNat
  if b = 0x5c ∨ b = 0x22 then [Char.ofNat 0x5c, c]
  else if b = 0x08 then [Char.ofNat 0x5c, 'b']
  else if b = 0x0c then [Char.ofNat 0x5c, 'f']
  else if b = 0x0a then [Char.ofNat 0x5c, 'n']
  else if b = 0x0d then [Char.ofNat 0x5c, 'r']
  else if b = 0x09 then [Char.ofNat 0x5c, 't']
  else if b < 0x20 ∨ b = 0x3c ∨ b = 0x3e ∨ b = 0x26 then
    [Char.ofNat 0x5c, 'u', '0', '0', hex (b / 16), hex (b % 16)]
  else if b = 0x2028 ∨ b = 0x2029 then
    [Char.ofNat 0x5c, 'u', '2', '0', '2', hex (b % 16)]
  else [c]

/-- Go `appendString`: a Go string as a quoted JSON string. -/
def quote (s : String) : String :=
  "\"" ++ ⟨s.data.flatMap escapeChar⟩ ++ "\""

/-- Go `strings.Compare(a, b) <= 0`. Go compares byte by byte; on UTF-8 text
that is the lexicographic order of the code points. -/
def strLe : List Char → List Char → Bool
  | [], _ => true
  | _ :: _, [] => false
  | a :: as, b :: bs =>
    if a.toNat < b.toNat then true
    else if b.toNat < a.toNat then false
    else strLe as bs

/-- The order in which `mapEncoder` writes the entries of a map: by key. -/
def sortByKey (kvs : List (String × String)) : List (String × String) :=
  kvs.insertionSort (fun a b => strLe a.1.data b.1.data = true)

/-- The members of an object, `"key":value` separated by commas. -/
def joinMembers : List (String × String) → String
  | [] => ""
  | [(k, v)] => quote k ++ ":" ++ v
  | (k, v) :: rest => quote k ++ ":" ++ v ++ "," ++ joinMembers rest

mutual
/-- The encoder of one value: `stringEncoder`, `mapEncoder`, or
`unsupportedTypeEncoder`. The values of a map are encoded and then written in
key order. -/
def encode : Any → Except String String
  | .str s => .ok (quote s)
  | .map m =>
    match encodeEntries m with
    | .ok kvs => .ok ("\x7b" ++ joinMembers (sortByKey kvs) ++ "\x7d")
    | .error e => .error e
  | .unsupported => .error "json: unsupported type"
/-- The entries of a map with their values encoded. -/
def encodeEntries : List (String × Any) → Except String (List (String × String))
  | [] => .ok []
  | (k, v) :: rest =>
    match encode v with
    | .error e => .error e
    | .ok s =>
      match encodeEntries rest with
      | .ok kvs => .ok ((k, s) :: kvs)
      | .error e => .error e
end

/-- Go `json.Marshal(v)`: the JSON encoding of `v`, or an error. -/
def Marshal (v : Any) : Except String String := encode v

end json

/-! ## `config.go` and `factory.go` -/

/-- Source `ResourceAttributesConfig`: which resource attributes feed stream names. -/
structure ResourceAttributesConfig where
  ServiceNameAttribute : String
  NamespaceAttribute : String
  deriving DecidableEq, Repr

/-- Source `BatchConfig`; `FlushInterval` is a `time.Duration`, in nanoseconds. -/
structure BatchConfig where
  MaxRecords : Int
  FlushInterval : Int
  deriving DecidableEq, Repr

/-- Source `Config`: the exporter configuration. -/
structure Config where
  BasinName : String
  StreamPrefix : String
  ResourceAttributes : ResourceAttributesConfig
  Batch : BatchConfig
  deriving DecidableEq, Repr

/-- Go `time.Second`, a `time.Duration` in nanoseconds. -/
def time.Second : Int := 1000000000

/-- Source `Config.Validate`: `nil` (here `none`) or the error. -/
def Config.Validate (cfg : Config) : Option String :=
  if cfg.BasinName = "" then some "basin_name cannot be empty" else none

/-- Source `CreateDefaultConfig`; `BasinName` is left at its zero value. -/
def CreateDefaultConfig : Config where
  BasinName := ""
  StreamPrefix := ""
  ResourceAttributes := ⟨"service.name", "k8s.namespace.name"⟩
  Batch := ⟨1000, 2 * time.Second⟩

/-! ## `exporter.go` -/

/-- Source `maxRecordSizeBytes`: the maximum size of a single record, 1 MiB. -/
def maxRecordSizeBytes : Nat := 1 * 1024 * 1024

/-- Source `basinExporter`, without its logger and client handles. -/
structure basinExporter where
  basin : String
  streamPrefix : String
  accessToken : String
  resourceAttributes : ResourceAttributesConfig
  batch : BatchConfig
  deriving DecidableEq, Repr

/-- One call of `sendRecord`: the stream name and the body it was given. -/
structure Call where
  streamName : String
  body : String
  deriving DecidableEq, Repr

/-- What `pushLogs` has done to the outside so far: the `sendRecord` calls
made, oldest first, and how many times the clock was read. -/
structure World where
  sent : List Call
  clockReads : Nat
  deriving DecidableEq, Repr

/-- The outside of the exporter. `NewStreamClient` and `Append` are the two
`s2` operations `sendRecord` performs; each answers `none` for success or an
error, and may answer differently depending on the calls made before.
`Now n` is what the `n`-th reading of `time.Now()` returns. -/
structure Env where
  NewStreamClient : List Call → String → String → String → Option String
  Append : List Call → String → String → Option String
  Now : Nat → time.Time

/-- The Go builtin `len` on a byte slice holding the text `s`. -/
def len (s : String) : Nat := s.utf8ByteSize

/-- The attributes of a `pcommon.Map` collected into a Go map with `Range`:
`m[k] = v.AsString()` for each entry in turn. -/
def rangeAsStrings (attrs : Map) : List (String × json.Any) :=
  attrs.foldl (fun m kv => json.mapAssign m kv.1 (json.Any.str kv.2.AsString)) []

/-- The `logEntry` map that `serializeLogRecord` builds. -/
def logEntry (record : LogRecord) (resource : Resource) : List (String × json.Any) :=
  let recordAttrs := rangeAsStrings record.Attributes
  let resourceAttrs := rangeAsStrings resource.Attributes
  [("timestamp", .str record.Timestamp.AsTime.FormatRFC3339Nano),
   ("severity_text", .str record.SeverityText),
   ("body", .str record.Body.AsString),
   ("attributes", .map recordAttrs),
   ("resource", .map resourceAttrs)]

/-- Source `serializeLogRecord`: the record as JSON with all core fields, or
just the body if marshaling fails. -/
def serializeLogRecord (record : LogRecord) (resource : Resource) : String :=
  match json.Marshal (.map (logEntry record resource)) with
  | .error _ => record.Body.AsString
  | .ok data => data

/-- Source `sendRecord`: open a stream client, append the body as one record. -/
def sendRecord (b : basinExporter) (env : Env) (w : World) (streamName body : String) :
    Option String × World :=
  let w1 : World := ⟨w.sent ++ [⟨streamName, body⟩], w.clockReads⟩
  match env.NewStreamClient w.sent b.basin streamName b.accessToken with
  | some err => (some ("failed to create stream client: " ++ err), w1)
  | none =>
    match env.Append w.sent streamName body with
    | some err => (some ("failed to append record: " ++ err), w1)
    | none => (none, w1)

/-- The innermost loop of `pushLogs`, over the records of one scope:
serialize, drop if oversized, route, dispatch; the first dispatch error is
returned at once. -/
def pushRecords (b : basinExporter) (env : Env) (resource : Resource)
    (svcName nsName : String) : List LogRecord → World → Option String × World
  | [], w => (none, w)
  | record :: rest, w =>
    let serializedBody := serializeLogRecord record resource
    if len serializedBody > maxRecordSizeBytes then
      -- logged as a warning, then `continue`
      pushRecords b env resource svcName nsName rest w
    else
      let timestamp := record.Timestamp.AsTime
      let tw : time.Time × World :=
        if timestamp.IsZero then (env.Now w.clockReads, ⟨w.sent, w.clockReads + 1⟩)
        else (timestamp, w)
      let hourKey := tw.1.FormatHour
      let streamName := b.streamPrefix ++ "-" ++ svcName ++ "-" ++ hourKey
      match sendRecord b env tw.2 streamName serializedBody with
      | (some err, w1) => (some err, w1)
      | (none, w1) => pushRecords b env resource svcName nsName rest w1

/-- The middle loop of `pushLogs`, over the scope groups of one resource. -/
def pushScopes (b : basinExporter) (env : Env) (resource : Resource)
    (svcName nsName : String) : List ScopeLogs → World → Option String × World
  | [], w => (none, w)
  | sl :: rest, w =>
    match pushRecords b env resource svcName nsName sl.LogRecords w with
    | (some err, w1) => (some err, w1)
    | (none, w1) => pushScopes b env resource svcName nsName rest w1

/-- The attribute lookup at the head of the outer loop: the text of the
resource attribute `key`, empty when `key` is empty or there is no such
attribute. -/
def attrName (key : String) (resource : Resource) : String :=
  if key ≠ "" then
    match resource.Attributes.Get key with
    | some val => val.AsString
    | none => ""
  else ""

/-- Source `basinExporter.pushLogs`, the outer loop over the resource groups:
returns the error (`none` for `nil`) and the world it leaves. -/
def pushLogs (b : basinExporter) (env : Env) : Logs → World → Option String × World
  | [], w => (none, w)
  | rl :: rest, w =>
    let resource := rl.Resource
    let svcName := attrName b.resourceAttributes.ServiceNameAttribute resource
    let nsName := attrName b.resourceAttributes.NamespaceAttribute resource
    match pushScopes b env resource svcName nsName rl.ScopeLogs w with
    | (some err, w1) => (some err, w1)
    | (none, w1) => pushLogs b env rest w1

/-! ## Vocabulary of the specification -/

/-- The records of a batch in iteration order (resource groups, then scope
groups, then records), each with the resource that owns it. -/
def records (ld : Logs) : List (Resource × LogRecord) :=
  ld.flatMap fun rl => rl.ScopeLogs.flatMap fun sl => sl.LogRecords.map fun r => (rl.Resource, r)

/-- Whether the serialized record is within the size ceiling. -/
def withinCeiling (p : Resource × LogRecord) : Bool :=
  len (serializeLogRecord p.2 p.1) ≤ maxRecordSizeBytes

/-- The service of a resource: the text of the resource attribute named by
`ServiceNameAttribute`, empty when that key is empty or the resource has no
such attribute. -/
def serviceOf (b : basinExporter) (resource : Resource) : String :=
  if b.resourceAttributes.ServiceNameAttribute = "" then ""
  else
    match resource.Attributes.Get b.resourceAttributes.ServiceNameAttribute with
    | some v => v.AsString
    | none => ""

/-- The hour bucket `YYYY-MM-DD-HH` of a record: its own timestamp, in UTC. -/
def hourBucket (record : LogRecord) : String := record.Timestamp.AsTime.FormatHour

/-- The dispatch a record within the ceiling is due: its stream name by the
formula `prefix-service-hourBucket`, and its serialized payload. -/
def callOf (b : basinExporter) (p : Resource × LogRecord) : Call :=
  ⟨b.streamPrefix ++ "-" ++ serviceOf b p.1 ++ "-" ++ hourBucket p.2,
   serializeLogRecord p.2 p.1⟩

/-- The dispatches a list of records is due: those within the ceiling, in
order. -/
def callsOf (b : basinExporter) (ps : List (Resource × LogRecord)) : List Call :=
  (ps.filter withinCeiling).map (callOf b)

/-- The answer of `sendRecord` to the call `c` made after the calls `hist`. -/
def outcome (b : basinExporter) (env : Env) (hist : List Call) (c : Call) : Option String :=
  (sendRecord b env ⟨hist, 0⟩ c.streamName c.body).1

/-- The day of the year of a month and day of the month: the inverse of
`time.monthDay`. -/
def time.ydayOf (leap : Bool) (md : Nat × Nat) : Nat :=
  time.daysBefore.getD (md.1 - 1) 0 + md.2 - 1 + (if leap ∧ md.1 > 2 then 1 else 0)

/-- The UTC hour a timestamp falls in: whole hours since the Unix epoch. -/
def utcHour (ts : Timestamp) : Int := toInt64 ts / 3600000000000

/-- A batch of one record under one resource. -/
def single (resource : Resource) (record : LogRecord) : Logs :=
  [⟨resource, [⟨[record]⟩]⟩]

/-- A flat fail-fast loop over a list of calls: each is dispatched in turn and
the first error is returned at once. -/
def dispatchAll (b : basinExporter) (env : Env) : List Call → World → Option String × World
  | [], w => (none, w)
  | c :: cs, w =>
    match sendRecord b env w c.streamName c.body with
    | (some err, w1) => (some err, w1)
    | (none, w1) => dispatchAll b env cs w1

/-- The attributes of a `pcommon.Map` as text: every key once, in order of
first appearance, with the text of the value the last entry under that key
holds. -/
def attrTexts (attrs : Map) : List (String × String) :=
  attrs.foldl (fun m kv => json.mapAssign m kv.1 kv.2.AsString) []

/-- The JSON text of an object whose values are strings: the members
`"key":"value"` in key order, between braces. -/
def objectText (m : List (String × String)) : String :=
  "\x7b" ++ json.joinMembers (json.sortByKey (m.map fun kv => (kv.1, json.quote kv.2))) ++ "\x7d"

/-- The structured form of a record: a JSON object with the five members
`attributes`, `body`, `resource`, `severity_text` and `timestamp`. -/
def structuredForm (record : LogRecord) (resource : Resource) : String :=
  "\x7b\"attributes\":" ++ objectText (attrTexts record.Attributes)
    ++ ",\"body\":" ++ json.quote record.Body.AsString
    ++ ",\"resource\":" ++ objectText (attrTexts resource.Attributes)
    ++ ",\"severity_text\":" ++ json.quote record.SeverityText
    ++ ",\"timestamp\":" ++ json.quote record.Timestamp.AsTime.FormatRFC3339Nano
    ++ "\x7d"

/-! ## Example data -/

/-- The resource of the concrete scenario. -/
def exampleResource : Resource :=
  ⟨[("service.name", ⟨"api"⟩), ("k8s.namespace.name", ⟨"prod"⟩)]⟩

/-- A record at `2024-01-15T10:30:00Z` with body `hello`. -/
def exampleRecord : LogRecord := ⟨1705314600000000000, "", ⟨"hello"⟩, []⟩

/-- A record with body `text` at `2024-01-15T10:30:00Z` plus `secs` seconds. -/
def recordAt (secs : Nat) (text : String) : LogRecord :=
  ⟨1705314600000000000 + secs * 1000000000, "INFO", ⟨text⟩, []⟩

/-- A record whose timestamp was never set. -/
def unsetRecord : LogRecord := ⟨0, "", ⟨"hello"⟩, []⟩

/-- An exporter with stream prefix `otel` and the default attribute keys. -/
def exampleExporter : basinExporter :=
  ⟨"logs", "otel", "token", ⟨"service.name", "k8s.namespace.name"⟩, ⟨1000, 2000000000⟩⟩

/-- A backend that accepts every record; the clock stands at
`2024-01-15T10:30:00Z`. -/
def okEnv : Env :=
  ⟨fun _ _ _ _ => none, fun _ _ _ => none, fun _ => time.Unix 1705314600 0⟩

/-- A backend that rejects the second append it is asked for. -/
def failSecondEnv : Env :=
  ⟨fun _ _ _ _ => none, fun hist _ _ => if hist.length = 1 then some "throttled" else none,
   fun _ => time.Unix 1705314600 0⟩

/-- A batch of three records in two scope groups. -/
def exampleBatch : Logs :=
  [⟨exampleResource, [⟨[recordAt 0 "one"]⟩, ⟨[recordAt 1 "two", recordAt 2 "three"]⟩]⟩]

/-- A resource without attributes. -/
def emptyResource : Resource := ⟨[]⟩

/-- A record at timestamp 0 whose body is `n` letters `a`; its serialized form
is `n + 95` bytes long. -/
def paddedRecord (n : Nat) : LogRecord := ⟨0, "", ⟨⟨List.replicate n 'a'⟩⟩, []⟩

/-- A record whose serialized form is exactly 1,048,576 bytes long. -/
def exactRecord : LogRecord := paddedRecord 1048481

/-- A record whose serialized form is 1,048,577 bytes long, one over. -/
def overRecord : LogRecord := paddedRecord 1048482

/-- A batch with an oversized record between two small ones. -/
def mixedBatch : Logs :=
  [⟨emptyResource, [⟨[paddedRecord 1, overRecord]⟩, ⟨[paddedRecord 2]⟩]⟩]

/-! ## Timestamps -/

namespace time

/-- Go `Unix(0, n)` splits `n` nanoseconds into whole seconds (rounded down) and
the nanoseconds left over. -/
theorem Unix_zero (n : Int) :
    Unix 0 n = ⟨n / 1000000000 + unixToInternal, n % 1000000000⟩ := by
  unfold Unix unixTime
  by_cases h0 : 0 ≤ n
  · have h1 : n.tdiv 1000000000 = n / 1000000000 := Int.tdiv_eq_ediv h0 (by decide)
    simp only [h1]
    split_ifs <;> (congr 1 <;> omega)
  · have h2 : n.tdiv 1000000000 = -((-n) / 1000000000) := by
      have h3 : n = -(-n) := by omega
      rw [h3, Int.neg_tdiv, Int.tdiv_eq_ediv (by omega) (by decide)]
      simp
    simp only [h2]
    split_ifs <;> (congr 1 <;> omega)

end time

theorem toInt64_bounds (u : Nat) :
    -9223372036854775808 ≤ toInt64 u ∧ toInt64 u ≤ 9223372036854775807 := by
  unfold toInt64
  split_ifs <;> omega

/-- The time `AsTime` gives: whole seconds and nanoseconds of the timestamp. -/
theorem AsTime_eq (ts : Timestamp) :
    ts.AsTime = ⟨toInt64 ts / 1000000000 + time.unixToInternal, toInt64 ts % 1000000000⟩ := by
  unfold Timestamp.AsTime
  exact time.Unix_zero _

/-- No timestamp converts to the zero `time.Time`: the earliest one is in the
year 1677. -/
theorem AsTime_not_IsZero (ts : Timestamp) : ts.AsTime.IsZero = false := by
  have hb := toInt64_bounds ts
  rw [AsTime_eq]
  simp [time.Time.IsZero, time.unixToInternal]
  intro h
  omega

/-! ## The calendar: hour keys and UTC hours -/

namespace time

theorem cut100 (r1 : Nat) (h : r1 < 146097) :
    r1 / 36524 - r1 / 36524 / 4 ≤ 3 ∧ 36524 * (r1 / 36524 - r1 / 36524 / 4) ≤ r1 ∧
      r1 - 36524 * (r1 / 36524 - r1 / 36524 / 4) ≤ 36524 := by
  have hq : r1 / 36524 ≤ 4 := by omega
  generalize hq1 : r1 / 36524 = q at *
  interval_cases q <;> omega

theorem cut1 (r3 : Nat) (h : r3 < 1461) :
    r3 / 365 - r3 / 365 / 4 ≤ 3 ∧ 365 * (r3 / 365 - r3 / 365 / 4) ≤ r3 ∧
      r3 - 365 * (r3 / 365 - r3 / 365 / 4) ≤ 365 := by
  have hq : r3 / 365 ≤ 4 := by omega
  generalize hq1 : r3 / 365 = q at *
  interval_cases q <;> omega

theorem cycle_years (a n100 n4 n1 : Nat) (h1 : n100 ≤ 3) (h2 : n4 ≤ 24) (h3 : n1 ≤ 3) :
    (400 * a + 100 * n100 + 4 * n4 + n1) / 4 = 100 * a + 25 * n100 + n4 ∧
    (400 * a + 100 * n100 + 4 * n4 + n1) / 100 = 4 * a + n100 ∧
    (400 * a + 100 * n100 + 4 * n4 + n1) / 400 = a := by
  omega

/-- The day number is recovered from the year and the day of the year that
`absYear` computes. -/
theorem absYear_days (d : Nat) :
    d = 365 * (absYear d).1 + (absYear d).1 / 4 - (absYear d).1 / 100 + (absYear d).1 / 400
        + (absYear d).2 ∧ (absYear d).2 ≤ 365 := by
  simp only [absYear, daysPer400Years, daysPer100Years, daysPer4Years, Nat.reduceMul,
    Nat.reduceAdd]
  generalize hA : d / 146097 = a
  generalize hr1 : d - 146097 * a = r1
  have hr1lt : r1 < 146097 := by omega
  have hda : d = 146097 * a + r1 := by omega
  obtain ⟨c1, c2, c3⟩ := cut100 r1 hr1lt
  generalize r1 / 36524 - r1 / 36524 / 4 = n100 at *
  generalize hr2 : r1 - 36524 * n100 = r2
  generalize hn4 : r2 / 1461 = n4
  generalize hr3 : r2 - 1461 * n4 = r3
  have hr3lt : r3 < 1461 := by omega
  obtain ⟨e1, e2, e3⟩ := cut1 r3 hr3lt
  generalize r3 / 365 - r3 / 365 / 4 = n1 at *
  obtain ⟨y1, y2, y3⟩ := cycle_years a n100 n4 n1 c1 (by omega) e1
  rw [y1, y2, y3]
  omega

theorem monthDay_inv : ∀ leap : Bool, ∀ yday < 366,
    ydayOf leap (monthDay leap yday) = yday ∧ (monthDay leap yday).1 < 100
      ∧ (monthDay leap yday).2 < 100 := by
  decide

theorem digitChar_inj : ∀ a < 10, ∀ b < 10, Nat.digitChar a = Nat.digitChar b → a = b := by
  decide

theorem appendInt_two (n : Nat) (h : n < 100) :
    appendInt (n : Int) 2 = ⟨[Nat.digitChar (n / 10), Nat.digitChar (n % 10)]⟩ := by
  have h0 : ¬ ((n : Int) < 0) := by omega
  simp only [appendInt, Int.natAbs_ofNat, h, and_self, if_true, h0, if_false]
  rfl

theorem appendInt_four (n : Nat) (h : n < 10000) :
    appendInt (n : Int) 4 = ⟨[Nat.digitChar (n / 1000), Nat.digitChar (n / 100 % 10),
      Nat.digitChar (n / 10 % 10), Nat.digitChar (n % 10)]⟩ := by
  have h0 : ¬ ((n : Int) < 0) := by omega
  simp only [appendInt, Int.natAbs_ofNat, h, and_self, if_true, h0, if_false]
  simp only [show ¬ (4 = 2) by decide, false_and, if_false]
  rfl

/-- A date of at most four year digits is read back from its `2006-01-02-15`
form. -/
theorem hourKey_inj (y1 y2 m1 m2 d1 d2 h1 h2 : Nat)
    (hy1 : y1 < 10000) (hy2 : y2 < 10000) (hm1 : m1 < 100) (hm2 : m2 < 100)
    (hd1 : d1 < 100) (hd2 : d2 < 100) (hh1 : h1 < 100) (hh2 : h2 < 100)
    (h : appendInt (y1 : Int) 4 ++ "-" ++ appendInt (m1 : Int) 2 ++ "-" ++ appendInt (d1 : Int) 2
        ++ "-" ++ appendInt (h1 : Int) 2
      = appendInt (y2 : Int) 4 ++ "-" ++ appendInt (m2 : Int) 2 ++ "-" ++ appendInt (d2 : Int) 2
        ++ "-" ++ appendInt (h2 : Int) 2) :
    y1 = y2 ∧ m1 = m2 ∧ d1 = d2 ∧ h1 = h2 := by
  rw [appendInt_four y1 hy1, appendInt_four y2 hy2, appendInt_two m1 hm1, appendInt_two m2 hm2,
    appendInt_two d1 hd1, appendInt_two d2 hd2, appendInt_two h1 hh1, appendInt_two h2 hh2] at h
  have h' := congrArg String.data h
  simp only [String.data_append, List.cons_append, List.nil_append, List.cons.injEq] at h'
  obtain ⟨a1, a2, a3, a4, -, b1, b2, -, c1, c2, -, e1, e2, -⟩ := h'
  have := digitChar_inj _ (by omega) _ (by omega) a1
  have := digitChar_inj _ (by omega) _ (by omega) a2
  have := digitChar_inj _ (by omega) _ (by omega) a3
  have := digitChar_inj _ (by omega) _ (by omega) a4
  have := digitChar_inj _ (by omega) _ (by omega) b1
  have := digitChar_inj _ (by omega) _ (by omega) b2
  have := digitChar_inj _ (by omega) _ (by omega) c1
  have := digitChar_inj _ (by omega) _ (by omega) c2
  have := digitChar_inj _ (by omega) _ (by omega) e1
  have := digitChar_inj _ (by omega) _ (by omega) e2
  refine ⟨?_, ?_, ?_, ?_⟩ <;> omega

end time

/-- The absolute time of a timestamp: its whole seconds since the Unix epoch,
moved to the absolute epoch. No `uint64` wrap-around occurs. -/
theorem abs_AsTime (ts : Timestamp) :
    (ts.AsTime.abs : Int) = toInt64 ts / 1000000000 + 9223372028715321600 := by
  have hb := toInt64_bounds ts
  rw [AsTime_eq]
  simp only [time.Time.abs, time.Time.unixSec, time.unixToInternal, time.internalToAbsolute]
  omega

/-- The year of a timestamp has four digits (it lies between 1677 and 2262). -/
theorem year_AsTime (ts : Timestamp) :
    ∃ y : Nat, ((time.absYear (ts.AsTime.abs / 86400)).1 : Int) + time.absoluteZeroYear = y
      ∧ y < 10000 := by
  have hb := toInt64_bounds ts
  have ha := abs_AsTime ts
  obtain ⟨hd, hyd⟩ := time.absYear_days (ts.AsTime.abs / 86400)
  generalize (time.absYear (ts.AsTime.abs / 86400)).1 = y at hd
  generalize (time.absYear (ts.AsTime.abs / 86400)).2 = yd at hd hyd
  generalize ts.AsTime.abs = A at ha hd
  refine ⟨y - 292277022399, ?_, ?_⟩
  · simp only [time.absoluteZeroYear]; omega
  · omega

/-- Two timestamps get the same hour key exactly when they fall in the same
UTC hour. -/
theorem FormatHour_AsTime_eq_iff (t1 t2 : Timestamp) :
    t1.AsTime.FormatHour = t2.AsTime.FormatHour ↔ utcHour t1 = utcHour t2 := by
  have ha1 := abs_AsTime t1
  have ha2 := abs_AsTime t2
  have key : utcHour t1 = utcHour t2 ↔ t1.AsTime.abs / 3600 = t2.AsTime.abs / 3600 := by
    unfold utcHour
    omega
  rw [key]
  obtain ⟨y1, hy1, hy1lt⟩ := year_AsTime t1
  obtain ⟨y2, hy2, hy2lt⟩ := year_AsTime t2
  obtain ⟨hd1, hyd1⟩ := time.absYear_days (t1.AsTime.abs / 86400)
  obtain ⟨hd2, hyd2⟩ := time.absYear_days (t2.AsTime.abs / 86400)
  simp only [time.Time.FormatHour, time.absDate, time.secondsPerDay, time.secondsPerHour]
  rw [hy1, hy2]
  constructor
  · intro h
    obtain ⟨m1, n1, k1⟩ := time.monthDay_inv (time.isLeap y1)
      (time.absYear (t1.AsTime.abs / 86400)).2 (by omega)
    obtain ⟨m2, n2, k2⟩ := time.monthDay_inv (time.isLeap y2)
      (time.absYear (t2.AsTime.abs / 86400)).2 (by omega)
    obtain ⟨e1, e2, e3, e4⟩ := time.hourKey_inj _ _ _ _ _ _ _ _ hy1lt hy2lt n1 n2 k1 k2
      (by omega) (by omega) h
    subst e1
    have hmd : time.monthDay (time.isLeap y1) (time.absYear (t1.AsTime.abs / 86400)).2
        = time.monthDay (time.isLeap y1) (time.absYear (t2.AsTime.abs / 86400)).2 :=
      Prod.ext e2 e3
    have hyd : (time.absYear (t1.AsTime.abs / 86400)).2
        = (time.absYear (t2.AsTime.abs / 86400)).2 := by
      rw [← m1, ← m2, hmd]
    have hy : (time.absYear (t1.AsTime.abs / 86400)).1
        = (time.absYear (t2.AsTime.abs / 86400)).1 := by
      omega
    rw [hy, hyd] at hd1
    omega
  · intro h
    have hday : t1.AsTime.abs / 86400 = t2.AsTime.abs / 86400 := by omega
    have hhour : t1.AsTime.abs % 86400 / 3600 = t2.AsTime.abs % 86400 / 3600 := by omega
    have hyy : y1 = y2 := by
      rw [hday] at hy1
      omega
    rw [hday, hhour, hyy]

/-! ## The loops of `pushLogs` -/

theorem attrName_eq_serviceOf (b : basinExporter) (resource : Resource) :
    attrName b.resourceAttributes.ServiceNameAttribute resource = serviceOf b resource := by
  unfold attrName serviceOf
  by_cases h : b.resourceAttributes.ServiceNameAttribute = "" <;> simp [h]

/-- The world after a `sendRecord` call: the call is appended to the log. -/
theorem sendRecord_world (b : basinExporter) (env : Env) (w : World) (s body : String) :
    (sendRecord b env w s body).2 = ⟨w.sent ++ [⟨s, body⟩], w.clockReads⟩ := by
  unfold sendRecord
  split
  · rfl
  · split <;> rfl

/-- The answer of `sendRecord` does not depend on the clock count. -/
theorem sendRecord_outcome (b : basinExporter) (env : Env) (w : World) (c : Call) :
    (sendRecord b env w c.streamName c.body).1 = outcome b env w.sent c := by
  unfold outcome sendRecord
  dsimp only
  cases env.NewStreamClient w.sent b.basin c.streamName b.accessToken with
  | some e => rfl
  | none =>
    cases env.Append w.sent c.streamName c.body with
    | some e => rfl
    | none => rfl

theorem pushRecords_eq (b : basinExporter) (env : Env) (resource : Resource) (ns : String)
    (rs : List LogRecord) (w : World) :
    pushRecords b env resource (serviceOf b resource) ns rs w
      = dispatchAll b env (callsOf b (rs.map fun r => (resource, r))) w := by
  induction rs generalizing w with
  | nil => rfl
  | cons r rest ih =>
    rw [pushRecords]
    by_cases hsz : len (serializeLogRecord r resource) > maxRecordSizeBytes
    · have hw : withinCeiling (resource, r) = false := by
        simp only [withinCeiling, decide_eq_false_iff_not]; omega
      simp only [hsz, if_true, ih, callsOf, List.map_cons, List.filter_cons, hw]
      simp
    · have hw : withinCeiling (resource, r) = true := by
        simp only [withinCeiling, decide_eq_true_eq]; omega
      simp only [hsz, if_false, AsTime_not_IsZero, callsOf, List.map_cons, List.filter_cons, hw,
        if_true, dispatchAll, callOf, hourBucket]
      simp only [Bool.false_eq_true, if_false]
      split
      · rfl
      · rename_i w1 heq
        have := ih w1
        simp only [callsOf] at this
        rw [this]

theorem dispatchAll_append (b : basinExporter) (env : Env) (xs ys : List Call) (w : World) :
    dispatchAll b env (xs ++ ys) w
      = match dispatchAll b env xs w with
        | (some err, w1) => (some err, w1)
        | (none, w1) => dispatchAll b env ys w1 := by
  induction xs generalizing w with
  | nil => rfl
  | cons c cs ih =>
    simp only [List.cons_append, dispatchAll]
    split
    · rfl
    · rename_i w1 _
      exact ih w1

theorem callsOf_append (b : basinExporter) (xs ys : List (Resource × LogRecord)) :
    callsOf b (xs ++ ys) = callsOf b xs ++ callsOf b ys := by
  simp [callsOf]

theorem pushScopes_eq (b : basinExporter) (env : Env) (resource : Resource) (ns : String)
    (sls : List ScopeLogs) (w : World) :
    pushScopes b env resource (serviceOf b resource) ns sls w
      = dispatchAll b env
          (callsOf b (sls.flatMap fun sl => sl.LogRecords.map fun r => (resource, r))) w := by
  induction sls generalizing w with
  | nil => rfl
  | cons sl rest ih =>
    rw [pushScopes, List.flatMap_cons, callsOf_append, dispatchAll_append, pushRecords_eq]
    split
    · rfl
    · exact ih _

/-- The three nested loops of `pushLogs` are one fail-fast loop over the
dispatches due to the records of the batch. -/
theorem pushLogs_eq (b : basinExporter) (env : Env) (ld : Logs) (w : World) :
    pushLogs b env ld w = dispatchAll b env (callsOf b (records ld)) w := by
  induction ld generalizing w with
  | nil => rfl
  | cons rl rest ih =>
    rw [pushLogs]
    simp only [attrName_eq_serviceOf]
    rw [records, List.flatMap_cons, callsOf_append, dispatchAll_append, pushScopes_eq]
    split
    · rfl
    · exact ih _

/-- A run of calls that all succeed is dispatched in full. -/
theorem dispatchAll_ok (b : basinExporter) (env : Env) (cs : List Call) (w : World)
    (hok : ∀ pre c post, cs = pre ++ c :: post → outcome b env (w.sent ++ pre) c = none) :
    dispatchAll b env cs w = (none, ⟨w.sent ++ cs, w.clockReads⟩) := by
  induction cs generalizing w with
  | nil => simp [dispatchAll]
  | cons c rest ih =>
    have h1 : (sendRecord b env w c.streamName c.body).1 = none := by
      rw [sendRecord_outcome]
      simpa using hok [] c rest rfl
    have h2 := sendRecord_world b env w c.streamName c.body
    rw [dispatchAll]
    generalize sendRecord b env w c.streamName c.body = r at h1 h2
    obtain ⟨e, w1⟩ := r
    simp only at h1 h2
    subst h1 h2
    simp only
    rw [ih]
    · simp
    · intro pre c1 post hsplit
      have := hok (c :: pre) c1 post (by simp [hsplit])
      simpa using this

/-- The call that fails ends the loop: it is the last one made and its error
is the result. -/
theorem dispatchAll_fail (b : basinExporter) (env : Env) (c : Call) (cs : List Call) (w : World)
    (err : String) (hfail : outcome b env w.sent c = some err) :
    dispatchAll b env (c :: cs) w = (some err, ⟨w.sent ++ [c], w.clockReads⟩) := by
  have h1 : (sendRecord b env w c.streamName c.body).1 = some err := by
    rw [sendRecord_outcome]; exact hfail
  have h2 := sendRecord_world b env w c.streamName c.body
  rw [dispatchAll]
  generalize sendRecord b env w c.streamName c.body = r at h1 h2
  obtain ⟨e, w1⟩ := r
  simp only at h1 h2
  subst h1 h2
  rfl

/-- Whatever the backend answers, the calls made are a prefix of the calls due,
and the clock is not read. -/
theorem dispatchAll_world (b : basinExporter) (env : Env) (cs : List Call) (w : World) :
    ∃ k, (dispatchAll b env cs w).2 = ⟨w.sent ++ cs.take k, w.clockReads⟩ := by
  induction cs generalizing w with
  | nil => exact ⟨0, by simp [dispatchAll]⟩
  | cons c rest ih =>
    have h2 := sendRecord_world b env w c.streamName c.body
    rw [dispatchAll]
    generalize sendRecord b env w c.streamName c.body = r at h2
    obtain ⟨e, w1⟩ := r
    simp only at h2
    subst h2
    cases e with
    | some err => exact ⟨1, by simp⟩
    | none =>
      obtain ⟨k, hk⟩ := ih ⟨w.sent ++ [c], w.clockReads⟩
      exact ⟨k + 1, by simp [hk]⟩

/-- The first call due is always made. -/
theorem dispatchAll_cons_sent (b : basinExporter) (env : Env) (c : Call) (cs : List Call)
    (w : World) : ∃ rest, (dispatchAll b env (c :: cs) w).2.sent = w.sent ++ c :: rest := by
  have h2 := sendRecord_world b env w c.streamName c.body
  rw [dispatchAll]
  generalize sendRecord b env w c.streamName c.body = r at h2
  obtain ⟨e, w1⟩ := r
  simp only at h2
  subst h2
  cases e with
  | some err => exact ⟨[], by simp⟩
  | none =>
    obtain ⟨k, hk⟩ := dispatchAll_world b env cs ⟨w.sent ++ [c], w.clockReads⟩
    exact ⟨cs.take k, by simp [hk]⟩

/-- The calls `pushLogs` adds to the log are among the calls due. -/
theorem pushLogs_new_calls (b : basinExporter) (env : Env) (ld : Logs) (w : World) :
    ∃ k, (pushLogs b env ld w).2.sent.drop w.sent.length = (callsOf b (records ld)).take k := by
  obtain ⟨k, hk⟩ := dispatchAll_world b env (callsOf b (records ld)) w
  exact ⟨k, by rw [pushLogs_eq, hk]; simp⟩

/-- A batch of one record: the call due to it, if any, is made. -/
theorem pushLogs_single (b : basinExporter) (env : Env) (resource : Resource)
    (record : LogRecord) (w : World) :
    (pushLogs b env (single resource record) w).2.sent
      = w.sent ++ callsOf b [(resource, record)] := by
  have hr : records (single resource record) = [(resource, record)] := by
    simp [records, single]
  rw [pushLogs_eq, hr]
  by_cases h : withinCeiling (resource, record) = true
  · have hc : callsOf b [(resource, record)] = [callOf b (resource, record)] := by
      simp [callsOf, h]
    rw [hc, dispatchAll]
    have h2 := sendRecord_world b env w (callOf b (resource, record)).streamName
      (callOf b (resource, record)).body
    generalize sendRecord b env w (callOf b (resource, record)).streamName
      (callOf b (resource, record)).body = r at h2
    obtain ⟨e, w1⟩ := r
    simp only at h2
    subst h2
    cases e <;> simp [dispatchAll]
  · have hc : callsOf b [(resource, record)] = [] := by
      simp [callsOf, h]
    rw [hc]
    simp [dispatchAll]

/-! ## The structured form of a record -/

namespace json

theorem mapAssign_map {α β : Type} (f : α → β) (m : List (String × α)) (k : String)
    (v : α) :
    (mapAssign m k v).map (fun kv => (kv.1, f kv.2))
      = mapAssign (m.map fun kv => (kv.1, f kv.2)) k (f v) := by
  induction m with
  | nil => rfl
  | cons x rest ih =>
    obtain ⟨k0, v0⟩ := x
    simp only [mapAssign, List.map_cons]
    split_ifs
    · rfl
    · simp only [List.map_cons, ih]

/-- A map whose values are all strings always encodes. -/
theorem encodeEntries_str (l : List (String × String)) :
    encodeEntries (l.map fun kv => (kv.1, Any.str kv.2))
      = .ok (l.map fun kv => (kv.1, quote kv.2)) := by
  induction l with
  | nil => simp [encodeEntries]
  | cons x rest ih =>
    simp only [List.map_cons, encodeEntries, encode, ih]

end json

theorem rangeAsStrings_eq (attrs : Map) :
    rangeAsStrings attrs = (attrTexts attrs).map fun kv => (kv.1, json.Any.str kv.2) := by
  unfold rangeAsStrings attrTexts
  suffices h : ∀ (acc : List (String × String)),
      attrs.foldl (fun m kv => json.mapAssign m kv.1 (json.Any.str kv.2.AsString))
          (acc.map fun kv => (kv.1, json.Any.str kv.2))
        = (attrs.foldl (fun m kv => json.mapAssign m kv.1 kv.2.AsString) acc).map
            fun kv => (kv.1, json.Any.str kv.2) by
    simpa using h []
  induction attrs with
  | nil => intro acc; rfl
  | cons x rest ih =>
    intro acc
    simp only [List.foldl_cons]
    rw [← ih, json.mapAssign_map]

theorem encode_attrs (attrs : Map) :
    json.encode (.map (rangeAsStrings attrs)) = .ok (objectText (attrTexts attrs)) := by
  rw [rangeAsStrings_eq, json.encode, json.encodeEntries_str]
  rfl

/-- Structured encoding of a log entry never fails, and gives the structured
form. -/
theorem Marshal_logEntry (record : LogRecord) (resource : Resource) :
    json.Marshal (.map (logEntry record resource)) = .ok (structuredForm record resource) := by
  have hstr : ∀ s, json.encode (.str s) = .ok (json.quote s) := fun s => by rw [json.encode]
  unfold json.Marshal logEntry
  rw [json.encode.eq_2]
  simp only [json.encodeEntries, hstr, encode_attrs]
  simp only [structuredForm, json.sortByKey]
  congr 1
  generalize json.quote record.Timestamp.AsTime.FormatRFC3339Nano = t
  generalize json.quote record.SeverityText = sv
  generalize json.quote record.Body.AsString = bd
  generalize objectText (attrTexts record.Attributes) = at1
  generalize objectText (attrTexts resource.Attributes) = at2
  have hsort : List.insertionSort
      (fun a b : String × String => json.strLe a.1.data b.1.data = true)
      [("timestamp", t), ("severity_text", sv), ("body", bd), ("attributes", at1),
        ("resource", at2)]
      = [("attributes", at1), ("body", bd), ("resource", at2), ("severity_text", sv),
        ("timestamp", t)] := by rfl
  rw [hsort]
  simp only [json.joinMembers]
  apply String.ext
  simp only [String.data_append, List.append_assoc]
  rfl

theorem serializeLogRecord_eq (record : LogRecord) (resource : Resource) :
    serializeLogRecord record resource = structuredForm record resource := by
  unfold serializeLogRecord
  rw [Marshal_logEntry]

theorem len_append (a b : String) : len (a ++ b) = len a + len b := by
  show String.utf8Len (a ++ b).data = String.utf8Len a.data + String.utf8Len b.data
  rw [String.data_append, String.utf8Len_append]

theorem escape_replicate (n : Nat) :
    (List.replicate n 'a').flatMap json.escapeChar = List.replicate n 'a' := by
  induction n with
  | zero => rfl
  | succ k ih =>
    rw [List.replicate_succ, List.flatMap_cons, ih]
    rfl

theorem utf8Len_replicate (n : Nat) : String.utf8Len (List.replicate n 'a') = n := by
  induction n with
  | zero => rfl
  | succ k ih =>
    rw [List.replicate_succ, String.utf8Len_cons, ih]
    rfl

/-- The serialized size of a padded record. -/
theorem len_paddedRecord (n : Nat) :
    len (serializeLogRecord (paddedRecord n) emptyResource) = n + 95 := by
  have hq : len (json.quote ⟨List.replicate n 'a'⟩) = n + 2 := by
    unfold json.quote
    rw [len_append, len_append, escape_replicate]
    show 1 + String.utf8Len (List.replicate n 'a') + 1 = n + 2
    rw [utf8Len_replicate]
    omega
  have h1 : len "\x7b\"attributes\":" = 14 := by decide
  have h2 : len (objectText (attrTexts [])) = 2 := by decide
  have h3 : len ",\"body\":" = 8 := by decide
  have h4 : len ",\"resource\":" = 12 := by decide
  have h5 : len ",\"severity_text\":" = 17 := by decide
  have h6 : len (json.quote "") = 2 := by decide
  have h7 : len ",\"timestamp\":" = 13 := by decide
  have h8 : len (json.quote (Timestamp.AsTime 0).FormatRFC3339Nano) = 22 := by decide
  have h9 : len "\x7d" = 1 := by decide
  rw [serializeLogRecord_eq]
  simp only [structuredForm, paddedRecord, emptyResource, len_append, h1, h2, h3, h4, h5, h6,
    h7, h8, h9, hq]
  omega

theorem exactRecord_len : len (serializeLogRecord exactRecord emptyResource) = 1048576 :=
  len_paddedRecord 1048481

theorem overRecord_len : len (serializeLogRecord overRecord emptyResource) = 1048577 :=
  len_paddedRecord 1048482

/-- The serialized form is never empty: it opens with a brace. -/
theorem len_structuredForm_pos (record : LogRecord) (resource : Resource) :
    0 < len (structuredForm record resource) := by
  have h1 : len "\x7b\"attributes\":" = 14 := by decide
  simp only [structuredForm, len_append, h1]
  omega

namespace json

theorem keys_mapAssign {α : Type} (m : List (String × α)) (k : String) (v : α) :
    (mapAssign m k v).map Prod.fst
      = if k ∈ m.map Prod.fst then m.map Prod.fst else m.map Prod.fst ++ [k] := by
  induction m with
  | nil => simp [mapAssign]
  | cons x rest ih =>
    obtain ⟨k0, v0⟩ := x
    simp only [mapAssign]
    by_cases h : k0 = k
    · simp [h]
    · have h2 : ¬ k = k0 := fun e => h e.symm
      simp only [h, if_false, List.map_cons, ih, List.mem_cons, h2, false_or]
      split_ifs <;> simp

theorem nodup_mapAssign {α : Type} (m : List (String × α)) (k : String) (v : α)
    (h : (m.map Prod.fst).Nodup) : ((mapAssign m k v).map Prod.fst).Nodup := by
  rw [keys_mapAssign]
  split_ifs with hk
  · exact h
  · exact List.Nodup.append h (List.nodup_singleton k) (by simpa using hk)

theorem mem_mapAssign {α : Type} (m : List (String × α)) (k : String) (v : α)
    (h : (m.map Prod.fst).Nodup) (k1 : String) (t : α) :
    (k1, t) ∈ mapAssign m k v ↔ (k1 = k ∧ t = v) ∨ (k1 ≠ k ∧ (k1, t) ∈ m) := by
  induction m with
  | nil => simp [mapAssign]
  | cons x rest ih =>
    obtain ⟨k0, v0⟩ := x
    simp only [List.map_cons, List.nodup_cons] at h
    simp only [mapAssign]
    by_cases h0 : k0 = k
    · subst h0
      simp only [if_true, List.mem_cons, Prod.mk.injEq]
      constructor
      · rintro (⟨rfl, rfl⟩ | hm)
        · exact Or.inl ⟨rfl, rfl⟩
        · refine Or.inr ⟨?_, Or.inr hm⟩
          rintro rfl
          exact h.1 (List.mem_map_of_mem Prod.fst hm)
      · rintro (⟨rfl, rfl⟩ | ⟨hne, ⟨rfl, _⟩ | hm⟩)
        · exact Or.inl ⟨rfl, rfl⟩
        · exact absurd rfl hne
        · exact Or.inr hm
    · simp only [h0, if_false, List.mem_cons, Prod.mk.injEq, ih h.2]
      constructor
      · rintro (⟨rfl, rfl⟩ | ⟨rfl, rfl⟩ | ⟨hne, hm⟩)
        · exact Or.inr ⟨h0, Or.inl ⟨rfl, rfl⟩⟩
        · exact Or.inl ⟨rfl, rfl⟩
        · exact Or.inr ⟨hne, Or.inr hm⟩
      · rintro (⟨rfl, rfl⟩ | ⟨hne, ⟨rfl, rfl⟩ | hm⟩)
        · exact Or.inr (Or.inl ⟨rfl, rfl⟩)
        · exact Or.inl ⟨rfl, rfl⟩
        · exact Or.inr (Or.inr ⟨hne, hm⟩)

end json

theorem attrTexts_append (init : Map) (k : String) (v : Value) :
    attrTexts (init ++ [(k, v)]) = json.mapAssign (attrTexts init) k v.AsString := by
  simp [attrTexts, List.foldl_append]

/-- The keys of the text map are distinct. -/
theorem attrTexts_nodup (attrs : Map) : ((attrTexts attrs).map Prod.fst).Nodup := by
  induction attrs using List.reverseRecOn with
  | nil => simp [attrTexts]
  | append_singleton init x ih =>
    obtain ⟨k, v⟩ := x
    rw [attrTexts_append]
    exact json.nodup_mapAssign _ _ _ ih

/-- The text map holds, for every key of the attribute map, the text of the
value of the last entry under that key, and nothing else. -/
theorem mem_attrTexts (attrs : Map) (k : String) (t : String) :
    (k, t) ∈ attrTexts attrs ↔ (Map.Get attrs.reverse k).map Value.AsString = some t := by
  induction attrs using List.reverseRecOn with
  | nil => simp [attrTexts, Map.Get]
  | append_singleton init x ih =>
    obtain ⟨k0, v0⟩ := x
    rw [attrTexts_append, json.mem_mapAssign _ _ _ (attrTexts_nodup init), ih]
    simp only [List.reverse_append, List.reverse_cons, List.reverse_nil, List.nil_append,
      List.singleton_append, Map.Get]
    by_cases h : k0 = k
    · subst h
      simp only [if_true, Option.map_some', Option.some.injEq, ne_eq, not_true_eq_false,
        false_and, or_false, true_and]
      exact eq_comm
    · have h2 : ¬ k = k0 := fun e => h e.symm
      simp [h, h2]

theorem Get_of_mem (l : Map) (h : (l.map Prod.fst).Nodup) (k : String) (v : Value)
    (hm : (k, v) ∈ l) : Map.Get l k = some v := by
  induction l with
  | nil => simp at hm
  | cons x rest ih =>
    obtain ⟨k0, v0⟩ := x
    simp only [List.map_cons, List.nodup_cons] at h
    simp only [Map.Get]
    rcases List.mem_cons.mp hm with heq | hr
    · simp only [Prod.mk.injEq] at heq
      simp [heq.1, heq.2]
    · have hne : k0 ≠ k := by
        rintro rfl
        exact h.1 (List.mem_map_of_mem Prod.fst hr)
      simp only [hne, if_false]
      exact ih h.2 hr

/-- Every payload `pushLogs` hands to `sendRecord` is within the ceiling. -/
theorem pushLogs_sent_within (b : basinExporter) (env : Env) (ld : Logs) (w : World) (c : Call)
    (hc : c ∈ (pushLogs b env ld w).2.sent.drop w.sent.length) :
    len c.body ≤ 1048576 := by
  obtain ⟨k, hk⟩ := pushLogs_new_calls b env ld w
  rw [hk] at hc
  have hc1 : c ∈ callsOf b (records ld) := List.mem_of_mem_take hc
  simp only [callsOf, List.mem_map, List.mem_filter] at hc1
  obtain ⟨p, ⟨_, hw⟩, rfl⟩ := hc1
  simpa [withinCeiling, maxRecordSizeBytes] using hw

/-! ## Claims: dispatch order and the size ceiling -/

/-- C1 (fail-fast ordering). If the records of the batch, in iteration order,
are `before ++ p :: after`, every dispatch due to `before` succeeds and the
dispatch of `p` fails with `err`, then `pushLogs` returns exactly `err`, and
the `sendRecord` calls it made are the within-ceiling records of `before` in
their original order followed by `p`: nothing after `p` is attempted. -/
theorem pushLogs_fail_fast (b : basinExporter) (env : Env) (ld : Logs) (w : World)
    (before after : List (Resource × LogRecord)) (p : Resource × LogRecord) (err : String)
    (hsplit : records ld = before ++ p :: after)
    (hsize : withinCeiling p = true)
    (hok : ∀ pre c post, callsOf b before = pre ++ c :: post →
      outcome b env (w.sent ++ pre) c = none)
    (hfail : outcome b env (w.sent ++ callsOf b before) (callOf b p) = some err) :
    pushLogs b env ld w
      = (some err, ⟨w.sent ++ callsOf b before ++ [callOf b p], w.clockReads⟩) := by
  have hp : callsOf b (p :: after) = callOf b p :: callsOf b after := by
    simp [callsOf, List.filter_cons, hsize]
  rw [pushLogs_eq, hsplit, callsOf_append, dispatchAll_append, dispatchAll_ok b env _ w hok, hp]
  simp only
  rw [dispatchAll_fail b env _ _ _ err hfail]

/-- C1 at a batch of three records where the backend rejects the second
append: one call succeeds, the second returns the error, the third record is
never sent. -/
theorem pushLogs_fail_fast_witness :
    pushLogs exampleExporter failSecondEnv exampleBatch ⟨[], 0⟩
      = (some "failed to append record: throttled",
          ⟨[] ++ callsOf exampleExporter [(exampleResource, recordAt 0 "one")]
            ++ [callOf exampleExporter (exampleResource, recordAt 1 "two")], 0⟩) :=
  pushLogs_fail_fast exampleExporter failSecondEnv exampleBatch ⟨[], 0⟩
    [(exampleResource, recordAt 0 "one")] [(exampleResource, recordAt 2 "three")]
    (exampleResource, recordAt 1 "two") "failed to append record: throttled"
    (by decide) (by decide)
    (by
      intro pre c post h
      have hc : callsOf exampleExporter [(exampleResource, recordAt 0 "one")]
          = [callOf exampleExporter (exampleResource, recordAt 0 "one")] := by decide
      rw [hc] at h
      cases pre with
      | nil =>
        simp only [List.nil_append, List.cons.injEq] at h
        rw [← h.1]
        rfl
      | cons x xs => simp at h)
    (by
      have hc : callsOf exampleExporter [(exampleResource, recordAt 0 "one")]
          = [callOf exampleExporter (exampleResource, recordAt 0 "one")] := by decide
      rw [hc]
      rfl)

/-- C2 (oversized records are dropped, order is kept). If every dispatch the
batch is due succeeds, `pushLogs` returns `nil`, the calls it makes are exactly
the dispatches due to the records within the ceiling, each once and in the
original order, and their payloads are the serialized records of the batch
restricted to those of at most 1,048,576 bytes. -/
theorem pushLogs_drops_oversized (b : basinExporter) (env : Env) (ld : Logs) (w : World)
    (hok : ∀ pre c post, callsOf b (records ld) = pre ++ c :: post →
      outcome b env (w.sent ++ pre) c = none) :
    pushLogs b env ld w = (none, ⟨w.sent ++ callsOf b (records ld), w.clockReads⟩) ∧
    (callsOf b (records ld)).map Call.body
      = ((records ld).map fun p => serializeLogRecord p.2 p.1).filter
          fun s => decide (len s ≤ 1048576) := by
  refine ⟨?_, ?_⟩
  · rw [pushLogs_eq, dispatchAll_ok b env _ w hok]
  · simp only [callsOf, List.map_map, List.filter_map]
    congr 1

/-- C2 at a batch with an oversized record between two small ones and a
backend that accepts everything: the batch succeeds and the two small records
are sent, in order. -/
theorem pushLogs_drops_oversized_witness :
    pushLogs exampleExporter okEnv mixedBatch ⟨[], 0⟩
      = (none, ⟨[callOf exampleExporter (emptyResource, paddedRecord 1),
          callOf exampleExporter (emptyResource, paddedRecord 2)], 0⟩) := by
  have h := (pushLogs_drops_oversized exampleExporter okEnv mixedBatch ⟨[], 0⟩
    (fun _ _ _ _ => rfl)).1
  have hr : records mixedBatch = [(emptyResource, paddedRecord 1), (emptyResource, overRecord),
      (emptyResource, paddedRecord 2)] := rfl
  have h1 : withinCeiling (emptyResource, paddedRecord 1) = true := by
    simp [withinCeiling, len_paddedRecord, maxRecordSizeBytes]
  have h2 : withinCeiling (emptyResource, overRecord) = false := by
    simp [withinCeiling, overRecord_len, maxRecordSizeBytes]
  have h3 : withinCeiling (emptyResource, paddedRecord 2) = true := by
    simp [withinCeiling, len_paddedRecord, maxRecordSizeBytes]
  have hc : callsOf exampleExporter (records mixedBatch)
      = [callOf exampleExporter (emptyResource, paddedRecord 1),
          callOf exampleExporter (emptyResource, paddedRecord 2)] := by
    rw [hr]
    simp [callsOf, List.filter_cons, h1, h2, h3]
  rw [hc] at h
  exact h

/-- C3 (size boundary). Let the records of the batch be `before ++ p :: after`
and let every dispatch due to `before` succeed, so that iteration reaches `p`.
If the payload of `p` is exactly 1,048,576 bytes long, `p` is passed to
`sendRecord` right after the calls of `before`. If it is 1,048,577 bytes long,
`pushLogs` behaves as on the batch without `p`, and that payload is not among
the bodies sent. In every case each body sent is at most 1,048,576 bytes. -/
theorem size_boundary (b : basinExporter) (env : Env) (ld : Logs) (w : World)
    (before after : List (Resource × LogRecord)) (p : Resource × LogRecord)
    (hsplit : records ld = before ++ p :: after)
    (hreach : ∀ pre c post, callsOf b before = pre ++ c :: post →
      outcome b env (w.sent ++ pre) c = none) :
    (len (serializeLogRecord p.2 p.1) = 1048576 →
      ∃ rest, (pushLogs b env ld w).2.sent
        = w.sent ++ callsOf b before ++ callOf b p :: rest) ∧
    (len (serializeLogRecord p.2 p.1) = 1048577 →
      (∀ ld1, records ld1 = before ++ after → pushLogs b env ld w = pushLogs b env ld1 w) ∧
      serializeLogRecord p.2 p.1
        ∉ ((pushLogs b env ld w).2.sent.drop w.sent.length).map Call.body) ∧
    (∀ c ∈ (pushLogs b env ld w).2.sent.drop w.sent.length, len c.body ≤ 1048576) := by
  refine ⟨?_, ?_, ?_⟩
  · intro hlen
    have hw : withinCeiling p = true := by
      simp [withinCeiling, hlen, maxRecordSizeBytes]
    have hp : callsOf b (p :: after) = callOf b p :: callsOf b after := by
      simp [callsOf, List.filter_cons, hw]
    rw [pushLogs_eq, hsplit, callsOf_append, dispatchAll_append,
      dispatchAll_ok b env _ w hreach, hp]
    exact dispatchAll_cons_sent b env _ _ _
  · intro hlen
    have hw : withinCeiling p = false := by
      simp [withinCeiling, hlen, maxRecordSizeBytes]
    refine ⟨?_, ?_⟩
    · intro ld1 h1
      rw [pushLogs_eq, pushLogs_eq, hsplit, h1]
      congr 1
      simp [callsOf, List.filter_cons, hw]
    · intro hmem
      obtain ⟨c, hc, hbody⟩ := List.mem_map.mp hmem
      have := pushLogs_sent_within b env ld w c hc
      rw [hbody, hlen] at this
      omega
  · intro c hc
    exact pushLogs_sent_within b env ld w c hc

/-- C3 at a record whose payload is exactly 1,048,576 bytes long: it is sent. -/
theorem size_boundary_witness :
    ∃ rest, (pushLogs exampleExporter okEnv (single emptyResource exactRecord) ⟨[], 0⟩).2.sent
      = [] ++ callsOf exampleExporter [] ++ callOf exampleExporter (emptyResource, exactRecord)
          :: rest :=
  (size_boundary exampleExporter okEnv (single emptyResource exactRecord) ⟨[], 0⟩ [] []
    (emptyResource, exactRecord) rfl (fun _ _ _ _ => rfl)).1 exactRecord_len

/-! ## Claims: routing -/

/-- C4 (stream-name formula). Every call `pushLogs` makes is due to a record of
the batch within the ceiling, carries that record's serialized payload, and
names the stream `prefix ++ "-" ++ service ++ "-" ++ hourBucket`: the service
is the text of the resource attribute named by `ServiceNameAttribute` (empty
when the key is empty or the attribute is missing) and the hour bucket is the
record's own timestamp formatted `2006-01-02-15` in UTC. An empty service
gives `prefix ++ "--" ++ hourBucket`. In the concrete scenario the name is
`otel-api-2024-01-15-10`. -/
theorem stream_name_formula :
    (∀ (b : basinExporter) (env : Env) (ld : Logs) (w : World) (c : Call),
      c ∈ (pushLogs b env ld w).2.sent.drop w.sent.length →
      ∃ p ∈ records ld, withinCeiling p = true ∧ c.body = serializeLogRecord p.2 p.1 ∧
        c.streamName = b.streamPrefix ++ "-" ++ serviceOf b p.1 ++ "-"
          ++ p.2.Timestamp.AsTime.FormatHour ∧
        (serviceOf b p.1 = "" →
          c.streamName = b.streamPrefix ++ "--" ++ p.2.Timestamp.AsTime.FormatHour)) ∧
    (∀ (b : basinExporter) (resource : Resource),
      (b.resourceAttributes.ServiceNameAttribute = "" → serviceOf b resource = "") ∧
      (resource.Attributes.Get b.resourceAttributes.ServiceNameAttribute = none →
        serviceOf b resource = "") ∧
      (∀ v, b.resourceAttributes.ServiceNameAttribute ≠ "" →
        resource.Attributes.Get b.resourceAttributes.ServiceNameAttribute = some v →
        serviceOf b resource = v.AsString)) ∧
    (pushLogs exampleExporter okEnv (single exampleResource exampleRecord) ⟨[], 0⟩).2.sent.map
      Call.streamName = ["otel-api-2024-01-15-10"] := by
  refine ⟨?_, ?_, by decide⟩
  · intro b env ld w c hc
    obtain ⟨k, hk⟩ := pushLogs_new_calls b env ld w
    rw [hk] at hc
    have hc1 : c ∈ callsOf b (records ld) := List.mem_of_mem_take hc
    simp only [callsOf, List.mem_map, List.mem_filter] at hc1
    obtain ⟨p, ⟨hp, hw⟩, rfl⟩ := hc1
    refine ⟨p, hp, hw, rfl, rfl, ?_⟩
    intro hs
    simp only [callOf, hourBucket, hs]
    simp [String.ext_iff]
  · intro b resource
    refine ⟨?_, ?_, ?_⟩
    · intro h; simp [serviceOf, h]
    · intro h; simp [serviceOf, h]
    · intro v h1 h2; simp [serviceOf, h1, h2]

/-- C4 at the concrete scenario: the one call made goes to
`otel-api-2024-01-15-10`, by the formula. -/
theorem stream_name_formula_witness :
    ∃ p ∈ records (single exampleResource exampleRecord), withinCeiling p = true ∧
      (⟨"otel-api-2024-01-15-10", serializeLogRecord exampleRecord exampleResource⟩ : Call).body
        = serializeLogRecord p.2 p.1 ∧
      (⟨"otel-api-2024-01-15-10", serializeLogRecord exampleRecord exampleResource⟩ :
        Call).streamName
        = exampleExporter.streamPrefix ++ "-" ++ serviceOf exampleExporter p.1 ++ "-"
          ++ p.2.Timestamp.AsTime.FormatHour ∧
      (serviceOf exampleExporter p.1 = "" →
        (⟨"otel-api-2024-01-15-10", serializeLogRecord exampleRecord exampleResource⟩ :
          Call).streamName
          = exampleExporter.streamPrefix ++ "--" ++ p.2.Timestamp.AsTime.FormatHour) :=
  stream_name_formula.1 exampleExporter okEnv (single exampleResource exampleRecord) ⟨[], 0⟩
    ⟨"otel-api-2024-01-15-10", serializeLogRecord exampleRecord exampleResource⟩ (by decide)

/-- C6 (hour-bucket grouping). Take two records within the ceiling whose
resources have the same service, each pushed by the same exporter. Each is
given one stream name, and the two names are equal exactly when the two
timestamps fall in the same UTC hour. In particular the last second of an hour
and the first second after it get different names. -/
theorem hour_bucket_grouping (b : basinExporter) (env1 env2 : Env) (w1 w2 : World)
    (res1 res2 : Resource) (r1 r2 : LogRecord)
    (hsvc : serviceOf b res1 = serviceOf b res2)
    (h1 : withinCeiling (res1, r1) = true) (h2 : withinCeiling (res2, r2) = true) :
    ∃ n1 n2,
      ((pushLogs b env1 (single res1 r1) w1).2.sent.drop w1.sent.length).map Call.streamName
        = [n1] ∧
      ((pushLogs b env2 (single res2 r2) w2).2.sent.drop w2.sent.length).map Call.streamName
        = [n2] ∧
      (n1 = n2 ↔ utcHour r1.Timestamp = utcHour r2.Timestamp) ∧
      (∀ H : Int, toInt64 r1.Timestamp = H * 3600000000000 - 1000000000 →
        toInt64 r2.Timestamp = H * 3600000000000 + 1000000000 → n1 ≠ n2) := by
  have hiff : (callOf b (res1, r1)).streamName = (callOf b (res2, r2)).streamName
      ↔ utcHour r1.Timestamp = utcHour r2.Timestamp := by
    rw [← FormatHour_AsTime_eq_iff]
    simp only [callOf, hourBucket, hsvc]
    simp [String.ext_iff]
  refine ⟨(callOf b (res1, r1)).streamName, (callOf b (res2, r2)).streamName, ?_, ?_, hiff, ?_⟩
  · rw [pushLogs_single]
    simp [callsOf, h1]
  · rw [pushLogs_single]
    simp [callsOf, h2]
  · intro H e1 e2 hn
    have := hiff.mp hn
    unfold utcHour at this
    omega

/-- C6 at two records one second before and one second after 11:00:00 UTC on
2024-01-15: they get different stream names. -/
theorem hour_bucket_grouping_witness :
    ∃ n1 n2,
      ((pushLogs exampleExporter okEnv (single exampleResource (recordAt 1799 "a"))
        ⟨[], 0⟩).2.sent.drop 0).map Call.streamName = [n1] ∧
      ((pushLogs exampleExporter okEnv (single exampleResource (recordAt 1801 "b"))
        ⟨[], 0⟩).2.sent.drop 0).map Call.streamName = [n2] ∧
      (n1 = n2 ↔
        utcHour (recordAt 1799 "a").Timestamp = utcHour (recordAt 1801 "b").Timestamp) ∧
      (∀ H : Int, toInt64 (recordAt 1799 "a").Timestamp = H * 3600000000000 - 1000000000 →
        toInt64 (recordAt 1801 "b").Timestamp = H * 3600000000000 + 1000000000 → n1 ≠ n2) :=
  hour_bucket_grouping exampleExporter okEnv okEnv ⟨[], 0⟩ ⟨[], 0⟩ exampleResource
    exampleResource (recordAt 1799 "a") (recordAt 1801 "b") rfl (by decide) (by decide)

/-- C5, what the code does: a record whose timestamp is unset (0) is routed to
the hour bucket of the Unix epoch, `1970-01-01-00`, although the clock stands
at `2024-01-15-10`; the clock is not read at all. `AsTime` turns 0 into
1970-01-01T00:00:00Z, which is not the zero `time.Time` that `IsZero` tests
for, so the fallback to `time.Now()` is never taken. -/
theorem unset_timestamp_routes_to_epoch :
    (pushLogs exampleExporter okEnv (single exampleResource unsetRecord) ⟨[], 0⟩).2
      = ⟨[⟨"otel-api-1970-01-01-00",
          serializeLogRecord unsetRecord exampleResource⟩], 0⟩ ∧
    (okEnv.Now 0).FormatHour = "2024-01-15-10" ∧
    unsetRecord.Timestamp.AsTime.IsZero = false := by
  decide

/-- C10 (routing determinism). The stream name `pushLogs` computes for a
record depends on the resource, the record and the exporter configuration
only: run against two different environments (clock and backend) from two
different worlds, and with a different namespace attribute key, it names the
same stream. -/
theorem routing_deterministic (b : basinExporter) (resource : Resource) (record : LogRecord)
    (env1 env2 : Env) (w1 w2 : World) (nsAttr : String) :
    ((pushLogs b env1 (single resource record) w1).2.sent.drop w1.sent.length).map
        Call.streamName
      = ((pushLogs ⟨b.basin, b.streamPrefix, b.accessToken,
            ⟨b.resourceAttributes.ServiceNameAttribute, nsAttr⟩, b.batch⟩
          env2 (single resource record) w2).2.sent.drop w2.sent.length).map
        Call.streamName := by
  rw [pushLogs_single, pushLogs_single]
  simp only [List.drop_left]
  rfl

/-! ## Claims: configuration -/

/-- C9 (config validation). `Validate` fails exactly when `BasinName` is empty;
the default configuration has stream prefix `""`, attribute keys
`service.name` and `k8s.namespace.name`, 1000 records per flush and a flush
interval of 2 seconds; with any non-empty `BasinName` it validates, and as
returned (empty `BasinName`) it does not. -/
theorem config_validation :
    (∀ cfg : Config, cfg.Validate ≠ none ↔ cfg.BasinName = "") ∧
    CreateDefaultConfig.StreamPrefix = "" ∧
    CreateDefaultConfig.ResourceAttributes.ServiceNameAttribute = "service.name" ∧
    CreateDefaultConfig.ResourceAttributes.NamespaceAttribute = "k8s.namespace.name" ∧
    CreateDefaultConfig.Batch.MaxRecords = 1000 ∧
    CreateDefaultConfig.Batch.FlushInterval = 2 * 1000000000 ∧
    (∀ name : String, name ≠ "" →
      Config.Validate { CreateDefaultConfig with BasinName := name } = none) ∧
    CreateDefaultConfig.BasinName = "" ∧
    CreateDefaultConfig.Validate = some "basin_name cannot be empty" := by
  refine ⟨?_, rfl, rfl, rfl, rfl, rfl, ?_, rfl, rfl⟩
  · intro cfg
    unfold Config.Validate
    by_cases h : cfg.BasinName = "" <;> simp [h]
  · intro name h
    simp [Config.Validate, h]

/-- C9 at the basin name `logs`: the default configuration with that name
validates. -/
theorem config_validation_witness :
    Config.Validate { CreateDefaultConfig with BasinName := "logs" } = none :=
  config_validation.2.2.2.2.2.2.1 "logs" (by decide)

/-! ## Claims: serialization -/

/-- C7 (total serialization). For every record and resource
`serializeLogRecord` returns a non-empty byte sequence, and it is the
structured JSON form (or else the raw body text); so also for an empty body
with empty attribute maps. -/
theorem serialization_total (record : LogRecord) (resource : Resource) :
    0 < len (serializeLogRecord record resource) ∧
    serializeLogRecord record resource ≠ "" ∧
    (json.Marshal (.map (logEntry record resource)) = .ok (serializeLogRecord record resource) ∨
      serializeLogRecord record resource = record.Body.AsString) ∧
    serializeLogRecord ⟨0, "", ⟨""⟩, []⟩ ⟨[]⟩
      = "\x7b\"attributes\":\x7b\x7d,\"body\":\"\",\"resource\":\x7b\x7d,\"severity_text\":\"\",\"timestamp\":\"1970-01-01T00:00:00Z\"\x7d" := by
  have hpos : 0 < len (serializeLogRecord record resource) := by
    rw [serializeLogRecord_eq]
    exact len_structuredForm_pos record resource
  refine ⟨hpos, ?_, Or.inl ?_, by decide⟩
  · intro h
    rw [h] at hpos
    exact absurd hpos (by decide)
  · rw [Marshal_logEntry, serializeLogRecord_eq]

/-- C8 (serialized payload contents). Structured encoding of a record always
succeeds and `serializeLogRecord` returns it: a JSON object with exactly the
members `attributes`, `body`, `resource`, `severity_text` and `timestamp`,
where `timestamp` is the record's timestamp in RFC3339 form with nanoseconds,
`severity_text` and `body` are the record's severity text and body text, and
`attributes` and `resource` are objects holding every attribute key once with
the text of its value (of the last entry under that key, should a key
repeat). For the record at `2024-01-15T10:30:00Z` with body `hello` the
payload contains `"timestamp":"2024-01-15T10:30:00Z"` and `"body":"hello"`. -/
theorem serialized_payload_contents :
    (∀ (record : LogRecord) (resource : Resource),
      json.Marshal (.map (logEntry record resource)) = .ok (serializeLogRecord record resource) ∧
      (logEntry record resource).map Prod.fst
        = ["timestamp", "severity_text", "body", "attributes", "resource"] ∧
      serializeLogRecord record resource
        = "\x7b\"attributes\":" ++ objectText (attrTexts record.Attributes)
          ++ ",\"body\":" ++ json.quote record.Body.AsString
          ++ ",\"resource\":" ++ objectText (attrTexts resource.Attributes)
          ++ ",\"severity_text\":" ++ json.quote record.SeverityText
          ++ ",\"timestamp\":" ++ json.quote record.Timestamp.AsTime.FormatRFC3339Nano
          ++ "\x7d") ∧
    (∀ (attrs : Map) (k t : String),
      (k, t) ∈ attrTexts attrs ↔ (Map.Get attrs.reverse k).map Value.AsString = some t) ∧
    (∀ attrs : Map, ((attrTexts attrs).map Prod.fst).Nodup) ∧
    (∀ attrs : Map, (attrs.map Prod.fst).Nodup →
      ∀ k v, (k, v) ∈ attrs → (k, v.AsString) ∈ attrTexts attrs) ∧
    serializeLogRecord exampleRecord exampleResource
      = "\x7b\"attributes\":\x7b\x7d,\"body\":\"hello\",\"resource\":\x7b\"k8s.namespace.name\":\"prod\",\"service.name\":\"api\"\x7d,\"severity_text\":\"\",\"timestamp\":\"2024-01-15T10:30:00Z\"\x7d" ∧
    "\"timestamp\":\"2024-01-15T10:30:00Z\"".data
      <:+: (serializeLogRecord exampleRecord exampleResource).data ∧
    "\"body\":\"hello\"".data <:+: (serializeLogRecord exampleRecord exampleResource).data := by
  refine ⟨?_, mem_attrTexts, attrTexts_nodup, ?_, by decide, ?_, ?_⟩
  · intro record resource
    refine ⟨?_, rfl, ?_⟩
    · rw [Marshal_logEntry, serializeLogRecord_eq]
    · rw [serializeLogRecord_eq]; rfl
  · intro attrs hnd k v hm
    rw [mem_attrTexts]
    have hnd1 : (attrs.reverse.map Prod.fst).Nodup := by
      rw [List.map_reverse]; exact List.nodup_reverse.mpr hnd
    rw [Get_of_mem attrs.reverse hnd1 k v (List.mem_reverse.mpr hm)]
    rfl
  · decide
  · decide

/-- C8 at a resource with two distinct attributes: both appear with their
text. -/
theorem serialized_payload_contents_witness :
    ("service.name", "api") ∈ attrTexts exampleResource.Attributes :=
  serialized_payload_contents.2.2.2.1 exampleResource.Attributes (by decide)
    "service.name" ⟨"api"⟩ (by decide)

end S2Exporter
